import Mathlib

/-!
Verification development for the request-parameter binding core of
kapetacom/sdk-go-rest-server.

The Go source is shallowly embedded: `FillStruct` / `setFieldValue`
(request/request.go) and `GetQueryParam` / `GetHeaderParams` /
`convertToType` (the scalar accessors) are translated into executable Lean
definitions over an explicit request value.  Machine integers are `Int` /
`Nat` with explicit two's-complement truncation where the Go code truncates;
Go library primitives used by the source (`strings.Split`, `strings.Join`,
`strconv.ParseBool` / `ParseInt` / `ParseUint`, `encoding/json` decoding)
are modelled by small executable Lean functions.

Modelling boundaries (stated once here, referenced in comments below):
* floating-point destination kinds are outside the embedded fragment
  (no verified property concerns them);
* `fmt.Sprintf("%v", x)` re-formatting of a JSON number is modelled by the
  number's original source lexeme, and composite values by a bracketed
  rendering; no verified property depends on this rendering;
* a failed `json.Unmarshal` may leave a partially written destination in
  Go; the embedding only tracks the success/error outcome and the value
  assigned on success, which is all the verified properties mention.
-/

namespace KapetaRest

/-- Association-list lookup with a default; models Go map indexing `m[k]`
(and echo's `ctx.Param`, which yields the empty string for unknown keys). -/
def lookupD {α : Type} (l : List (String × α)) (k : String) (d : α) : α :=
  match l with
  | [] => d
  | (k', v) :: rest => if k' = k then v else lookupD rest k d

/-- Last-binding lookup; models a Go `map[string]any` built from a JSON
object, where a later duplicate key overwrites an earlier one. -/
def lookupLast {α : Type} (l : List (String × α)) (k : String) : Option α :=
  match l with
  | [] => none
  | (k', v) :: rest =>
    match lookupLast rest k with
    | some w => some w
    | none => if k' = k then some v else none

/-- Split a character list at every occurrence of `c`; models Go
`strings.Split` for a one-character separator.  Always returns at least one
group, and `splitCh c [] = [[]]`, exactly as in Go. -/
def splitCh (c : Char) : List Char → List (List Char)
  | [] => [[]]
  | x :: rest =>
    match splitCh c rest with
    | [] => [[]]
    | g :: gs => if x = c then [] :: g :: gs else (x :: g) :: gs

/-- Join groups with separator `c`; models Go `strings.Join` for a
one-character separator. -/
def joinCh (c : Char) : List (List Char) → List Char
  | [] => []
  | [g] => g
  | g :: gs => g ++ c :: joinCh c gs

/-- Go `strings.Split(s, sep)` for a one-character `sep`. -/
def goSplit (c : Char) (s : String) : List String :=
  (splitCh c s.data).map String.mk

/-- Go `strings.Join(xs, sep)` for a one-character `sep`. -/
def goJoin (c : Char) (xs : List String) : String :=
  String.mk (joinCh c (xs.map String.data))

/-- Go `strings.SplitN(s, sep, 2)` for a one-character `sep`. -/
def goSplitN2 (c : Char) (s : String) : List String :=
  match splitCh c s.data with
  | [] => []
  | [g] => [String.mk g]
  | g :: gs => [String.mk g, String.mk (joinCh c gs)]

/-- ASCII lower-casing of one character. -/
def lowCh (c : Char) : Char :=
  if 65 ≤ c.toNat ∧ c.toNat ≤ 90 then Char.ofNat (c.toNat + 32) else c

/-- Models Go `strings.ToLower` on the ASCII tag tokens the source feeds it. -/
def strToLower (s : String) : String := String.mk (s.data.map lowCh)

/-- Decimal digit test. -/
def isDig (c : Char) : Bool := decide (48 ≤ c.toNat ∧ c.toNat ≤ 57)

/-- Value of a digit string (most significant first). -/
def digitsVal (ds : List Char) : Nat :=
  ds.foldl (fun a c => a * 10 + (c.toNat - 48)) 0

def allDigits (ds : List Char) : Bool := ds.all isDig

/-- The exact literal set Go `strconv.ParseBool` maps to `true`. -/
def trueLits : List String := ["1", "t", "T", "TRUE", "true", "True"]

/-- The exact literal set Go `strconv.ParseBool` maps to `false`. -/
def falseLits : List String := ["0", "f", "F", "FALSE", "false", "False"]

/-- Go `strconv.ParseBool`: accepts exactly the twelve literals above. -/
def parseBool (s : String) : Option Bool :=
  if s ∈ trueLits then some true
  else if s ∈ falseLits then some false
  else none

/-- Base-10 integer syntax of Go `strconv.ParseInt`: an optional sign
followed by at least one digit. -/
def parseIntRaw : List Char → Option Int
  | [] => none
  | '+' :: ds => if ds ≠ [] ∧ allDigits ds then some (digitsVal ds : Int) else none
  | '-' :: ds => if ds ≠ [] ∧ allDigits ds then some (-(digitsVal ds : Int)) else none
  | ds => if allDigits ds then some (digitsVal ds : Int) else none

/-- Go `strconv.ParseInt(s, 10, 64)` (also `strconv.Atoi` on a 64-bit
platform): syntax check plus the int64 range check; out-of-range input is
an error to the callers in this repository. -/
def parseInt64 (s : String) : Option Int :=
  match parseIntRaw s.data with
  | none => none
  | some i => if -(2 ^ 63 : Int) ≤ i ∧ i < (2 ^ 63 : Int) then some i else none

/-- Go `strconv.ParseUint(s, 10, 64)`: digits only (no sign permitted),
uint64 range. -/
def parseUint64 (s : String) : Option Nat :=
  match s.data with
  | [] => none
  | ds => if allDigits ds ∧ digitsVal ds < 2 ^ 64 then some (digitsVal ds) else none

/-- Signed destination widths of the `reflect.Int*` kinds (Go's plain `int`
is 64-bit on the supported platforms). -/
inductive IW
  | iDefault | i8 | i16 | i32 | i64
deriving DecidableEq

def iwBits : IW → Nat
  | .iDefault => 64
  | .i8 => 8
  | .i16 => 16
  | .i32 => 32
  | .i64 => 64

/-- Unsigned destination widths of the `reflect.Uint*` kinds. -/
inductive UW
  | uDefault | u8 | u16 | u32 | u64
deriving DecidableEq

def uwBits : UW → Nat
  | .uDefault => 64
  | .u8 => 8
  | .u16 => 16
  | .u32 => 32
  | .u64 => 64

/-- `reflect.Value.SetInt` stores an int64 into a narrower signed field by
two's-complement truncation (it does not fail on overflow); `Int.bmod` with
modulus `2^bits` is exactly that truncation. -/
def truncI (w : IW) (i : Int) : Int := Int.bmod i (2 ^ iwBits w)

/-- `reflect.Value.SetUint` truncation for unsigned fields. -/
def truncU (w : UW) (n : Nat) : Nat := n % 2 ^ uwBits w

/-- A decoded JSON value, as produced by Go `encoding/json` into `any`.
A number carries its integer value (meaningful when `integral` is true,
i.e. the lexeme had no fraction or exponent part, which is the condition
`encoding/json` itself uses when decoding into a Go integer type) and its
source lexeme (used only by the `%v` re-formatting model). -/
inductive Jval where
  | null
  | bool (b : Bool)
  | num (i : Int) (integral : Bool) (lexeme : String)
  | str (s : String)
  | arr (elems : List Jval)
  | obj (kvs : List (String × Jval))

/-- The opening-brace character of JSON object syntax. -/
def lbrace : Char := Char.ofNat 123

/-- The closing-brace character of JSON object syntax. -/
def rbrace : Char := Char.ofNat 125

/-- Skip JSON insignificant whitespace. -/
def skipWs : List Char → List Char
  | [] => []
  | c :: rest =>
    if c = ' ' ∨ c = '\t' ∨ c = '\n' ∨ c = '\r' then skipWs rest else c :: rest

/-- One-character JSON string escapes. -/
def escChar (c : Char) : Option Char :=
  if c = '"' then some '"'
  else if c = '\\' then some '\\'
  else if c = '/' then some '/'
  else if c = 'n' then some '\n'
  else if c = 't' then some '\t'
  else if c = 'r' then some '\r'
  else if c = 'b' then some (Char.ofNat 8)
  else if c = 'f' then some (Char.ofNat 12)
  else none

/-- Hex digit value. -/
def hexV (c : Char) : Option Nat :=
  if 48 ≤ c.toNat ∧ c.toNat ≤ 57 then some (c.toNat - 48)
  else if 97 ≤ c.toNat ∧ c.toNat ≤ 102 then some (c.toNat - 87)
  else if 65 ≤ c.toNat ∧ c.toNat ≤ 70 then some (c.toNat - 55)
  else none

/-- Parse the remainder of a JSON string literal (the opening quote already
consumed); returns the decoded characters and the rest of the input. -/
def pStrAux : List Char → Option (List Char × List Char)
  | [] => none
  | c :: rest =>
    if c = '"' then some ([], rest)
    else if c = '\\' then
      match rest with
      | [] => none
      | e :: r2 =>
        if e = 'u' then
          match r2 with
          | h1 :: h2 :: h3 :: h4 :: r3 =>
            match hexV h1, hexV h2, hexV h3, hexV h4 with
            | some a, some b, some c', some d =>
              match pStrAux r3 with
              | some (s, r4) => some (Char.ofNat (((a * 16 + b) * 16 + c') * 16 + d) :: s, r4)
              | none => none
            | _, _, _, _ => none
          | _ => none
        else
          match escChar e with
          | some ec =>
            match pStrAux r2 with
            | some (s, r3) => some (ec :: s, r3)
            | none => none
          | none => none
    else
      match pStrAux rest with
      | some (s, r2) => some (c :: s, r2)
      | none => none

/-- Take a maximal run of decimal digits. -/
def takeDigits : List Char → List Char × List Char
  | [] => ([], [])
  | c :: rest =>
    if isDig c then
      match takeDigits rest with
      | (ds, r) => (c :: ds, r)
    else ([], c :: rest)

/-- Parse a JSON number starting at the first character (`-` or a digit),
per the JSON grammar `encoding/json` enforces: no leading `+`, no leading
zeros, mandatory digits after `.` and in an exponent. -/
def pNum (cs : List Char) : Option (Jval × List Char) :=
  let p1 : List Char × List Char :=
    match cs with
    | '-' :: r => (['-'], r)
    | _ => ([], cs)
  let sgn := p1.1
  let p2 := takeDigits p1.2
  let ds := p2.1
  if ds.isEmpty then none
  else if 2 ≤ ds.length ∧ ds.headD 'x' = '0' then none
  else
    let fracRes : Option (List Char × List Char) :=
      match p2.2 with
      | '.' :: r =>
        match takeDigits r with
        | (fs, r2) => if fs.isEmpty then none else some ('.' :: fs, r2)
      | _ => some ([], p2.2)
    match fracRes with
    | none => none
    | some (frac, cs3) =>
      let expRes : Option (List Char × List Char) :=
        match cs3 with
        | c :: r =>
          if c = 'e' ∨ c = 'E' then
            let q : List Char × List Char :=
              match r with
              | s :: r2 => if s = '+' ∨ s = '-' then ([s], r2) else ([], r)
              | [] => ([], r)
            match takeDigits q.2 with
            | (es, r2) => if es.isEmpty then none else some (c :: q.1 ++ es, r2)
          else some ([], cs3)
        | [] => some ([], [])
      match expRes with
      | none => none
      | some (ex, cs4) =>
        let integral := frac.isEmpty ∧ ex.isEmpty
        let mag : Int := (digitsVal ds : Int)
        let iv : Int := if sgn.isEmpty then mag else -mag
        some (.num iv (decide integral) (String.mk (sgn ++ ds ++ frac ++ ex)), cs4)

/-- Consume an exact keyword. -/
def expectKw (kw : List Char) (cs : List Char) : Option (List Char) :=
  match kw, cs with
  | [], rest => some rest
  | k :: ks, c :: rest => if c = k then expectKw ks rest else none
  | _ :: _, [] => none

mutual

/-- Fuel-indexed JSON value parser modelling `encoding/json` syntax.  The
fuel only bounds recursion depth; callers supply enough for any input of
the given length. -/
def pVal : Nat → List Char → Option (Jval × List Char)
  | 0, _ => none
  | f + 1, cs =>
    match skipWs cs with
    | [] => none
    | c :: rest =>
      if c = lbrace then
        match skipWs rest with
        | c2 :: r2 =>
          if c2 = rbrace then some (.obj [], r2)
          else
            match pMembers f (c2 :: r2) with
            | some (kvs, r3) => some (.obj kvs, r3)
            | none => none
        | [] => none
      else if c = '[' then
        match skipWs rest with
        | ']' :: r2 => some (.arr [], r2)
        | r2 =>
          match pItems f r2 with
          | some (xs, r3) => some (.arr xs, r3)
          | none => none
      else if c = '"' then
        match pStrAux rest with
        | some (s, r2) => some (.str (String.mk s), r2)
        | none => none
      else if c = 't' then
        match expectKw ['r', 'u', 'e'] rest with
        | some r2 => some (.bool true, r2)
        | none => none
      else if c = 'f' then
        match expectKw ['a', 'l', 's', 'e'] rest with
        | some r2 => some (.bool false, r2)
        | none => none
      else if c = 'n' then
        match expectKw ['u', 'l', 'l'] rest with
        | some r2 => some (.null, r2)
        | none => none
      else pNum (c :: rest)

/-- Parse one-or-more `"key": value` members and the closing brace. -/
def pMembers : Nat → List Char → Option (List (String × Jval) × List Char)
  | 0, _ => none
  | f + 1, cs =>
    match skipWs cs with
    | '"' :: r1 =>
      match pStrAux r1 with
      | some (k, r2) =>
        match skipWs r2 with
        | ':' :: r3 =>
          match pVal f r3 with
          | some (v, r4) =>
            match skipWs r4 with
            | c :: r5 =>
              if c = ',' then
                match pMembers f r5 with
                | some (kvs, r6) => some ((String.mk k, v) :: kvs, r6)
                | none => none
              else if c = rbrace then some ([(String.mk k, v)], r5)
              else none
            | [] => none
          | none => none
        | _ => none
      | none => none
    | _ => none

/-- Parse one-or-more array items and the closing bracket. -/
def pItems : Nat → List Char → Option (List Jval × List Char)
  | 0, _ => none
  | f + 1, cs =>
    match pVal f cs with
    | some (v, r1) =>
      match skipWs r1 with
      | ',' :: r2 =>
        match pItems f r2 with
        | some (xs, r3) => some (v :: xs, r3)
        | none => none
      | ']' :: r2 => some ([v], r2)
      | _ => none
    | none => none

end

/-- Parse one JSON value from the front of the input; two fuel units per
input character always suffice. -/
def goParse (cs : List Char) : Option (Jval × List Char) :=
  pVal (2 * cs.length + 8) cs

/-- Go `json.Unmarshal` syntax phase: exactly one JSON value followed by
nothing but whitespace. -/
def goUnmarshal (s : String) : Option Jval :=
  match goParse s.data with
  | some (j, rest) => if (skipWs rest).isEmpty then some j else none
  | none => none

/-- Outcome of one `json.Decoder.Decode` call on a stream: `eof` when only
whitespace remains (Go returns `io.EOF`, whose message is exactly "EOF"),
`val` when one value was read (trailing bytes are left unread), `bad` on a
syntax error. -/
inductive DecOut where
  | eof
  | val (j : Jval)
  | bad

def goDecodeOne (s : String) : DecOut :=
  if (skipWs s.data).isEmpty then .eof
  else
    match goParse s.data with
    | some (j, _) => .val j
    | none => .bad

mutual

/-- Go `fmt.Sprintf("%v", x)` on a decoded JSON value (see the modelling
boundaries in the header comment: the number and composite renderings are
approximate; no verified property depends on them). -/
def fmtV : Jval → String
  | .null => "<nil>"
  | .bool true => "true"
  | .bool false => "false"
  | .num _ _ lex => lex
  | .str s => s
  | .arr xs => "[" ++ goJoin ' ' (fmtItems xs) ++ "]"
  | .obj kvs => "map[" ++ goJoin ' ' (fmtKvs kvs) ++ "]"

/-- Renderings of array items, for `fmtV`. -/
def fmtItems : List Jval → List String
  | [] => []
  | j :: js => fmtV j :: fmtItems js

/-- Renderings of object members, for `fmtV`. -/
def fmtKvs : List (String × Jval) → List String
  | [] => []
  | (k, j) :: kvs => (k ++ ":" ++ fmtV j) :: fmtKvs kvs

end

/-- Destination type descriptor: the `reflect.Kind`-driven shape of a
binding destination.  `map t` is a `map[string]t`; `other` stands for every
remaining kind the source's switches send to their `default` branch
(structs, pointers, channels, ...).  Floating-point kinds are outside the
embedded fragment (header comment). -/
inductive Ty where
  | str
  | bool
  | int (w : IW)
  | uint (w : UW)
  | slice (elem : Ty)
  | map (val : Ty)
  | other

/-- A Go destination value of one of the embedded kinds. -/
inductive Val where
  | str (s : String)
  | bool (b : Bool)
  | intv (w : IW) (i : Int)
  | uintv (w : UW) (n : Nat)
  | slice (xs : List Val)
  | vmap (kvs : List (String × Val))

mutual

/-- Go `encoding/json` decoding of an already-parsed JSON value into a
destination of shape `t` (the semantic phase of `json.Unmarshal`): strings
from JSON strings, booleans from JSON booleans, integers from integral
number literals that fit the destination width, slices elementwise from
arrays, string-keyed maps memberwise from objects, `null` giving a nil
slice/map.  For `Ty.other` the model is conservatively `none`; no verified
property relies on decoding into an `other` destination. -/
def decodeVal : Ty → Jval → Option Val
  | .str, .str s => some (.str s)
  | .bool, .bool b => some (.bool b)
  | .int w, .num i integral _ =>
    if integral ∧ -(2 ^ (iwBits w - 1) : Int) ≤ i ∧ i < (2 ^ (iwBits w - 1) : Int)
    then some (.intv w i) else none
  | .uint w, .num i integral _ =>
    if integral ∧ 0 ≤ i ∧ i < (2 ^ uwBits w : Int)
    then some (.uintv w i.toNat) else none
  | .slice _, .null => some (.slice [])
  | .slice t, .arr xs =>
    match decodeItems t xs with
    | some vs => some (.slice vs)
    | none => none
  | .map _, .null => some (.vmap [])
  | .map t, .obj kvs =>
    match decodeKvs t kvs with
    | some vs => some (.vmap vs)
    | none => none
  | _, _ => none

/-- Elementwise decoding of a JSON array's items. -/
def decodeItems : Ty → List Jval → Option (List Val)
  | _, [] => some []
  | t, j :: js =>
    match decodeVal t j with
    | none => none
    | some v =>
      match decodeItems t js with
      | none => none
      | some vs => some (v :: vs)

/-- Memberwise decoding of a JSON object's members. -/
def decodeKvs : Ty → List (String × Jval) → Option (List (String × Val))
  | _, [] => some []
  | t, (k, j) :: kvs =>
    match decodeVal t j with
    | none => none
    | some v =>
      match decodeKvs t kvs with
      | none => none
      | some vs => some ((k, v) :: vs)

end

/-- Conversion errors returned by the coercion primitives; each constructor
stands for one family of Go error values the source returns unchanged. -/
inductive CErr where
  | parseBool (val : String)
  | parseInt (val : String)
  | parseUint (val : String)
  | unmarshal
  | unsupportedType
deriving DecidableEq

/-- The element loop of `setFieldValue`'s slice branch: convert the split
parts in order with the element converter `f`, stopping at the first
failure. -/
def elemLoop (f : String → Except CErr Val) : List String → Except CErr (List Val)
  | [] => .ok []
  | p :: ps =>
    match f p with
    | .error e => .error e
    | .ok v =>
      match elemLoop f ps with
      | .error e => .error e
      | .ok vs => .ok (v :: vs)

/-- `setFieldValue` from request/request.go: convert the raw string `val`
to the destination kind and produce the value the field is set to.
String: verbatim.  Bool: `strconv.ParseBool`.  Signed integers:
`strconv.ParseInt(val, 10, 64)` then `SetInt` (two's-complement truncation
to the field's width).  Unsigned: `strconv.ParseUint(val, 10, 64)` then
`SetUint`.  Slice: split on "," and convert each element, assigning only
if every element succeeds, else returning the failing element's error
unchanged.  Map: `json.Unmarshal` of `val` into a fresh map value.
Everything else: the `default` branch's unsupported-type error. -/
def setFieldValue : Ty → String → Except CErr Val
  | .str => fun val => .ok (.str val)
  | .bool => fun val =>
    match parseBool val with
    | some b => .ok (.bool b)
    | none => .error (.parseBool val)
  | .int w => fun val =>
    match parseInt64 val with
    | some i => .ok (.intv w (truncI w i))
    | none => .error (.parseInt val)
  | .uint w => fun val =>
    match parseUint64 val with
    | some n => .ok (.uintv w (truncU w n))
    | none => .error (.parseUint val)
  | .slice t => fun val =>
    match elemLoop (setFieldValue t) (goSplit ',' val) with
    | .ok xs => .ok (.slice xs)
    | .error e => .error e
  | .map t => fun val =>
    match goUnmarshal val with
    | none => .error .unmarshal
    | some j =>
      match decodeVal (.map t) j with
      | some w => .ok w
      | none => .error .unmarshal
  | .other => fun _ => .error .unsupportedType

/-- The coercion rule the specification describes for key-mapping and
nested-structure destinations, modelled from the spec's words: the raw
value is parsed as a JSON document and structurally decoded into the
destination shape; malformed JSON or a shape mismatch is a conversion
error.  Kept separate from `setFieldValue` so the two can be compared. -/
def specJsonCoerce (t : Ty) (val : String) : Except CErr Val :=
  match goUnmarshal val with
  | none => .error .unmarshal
  | some j =>
    match decodeVal t j with
    | some w => .ok w
    | none => .error .unmarshal

/-- The `json.Unmarshal(bodyBytes, target)` step of `convertToType`: the
marshalled intermediate is immediately re-decoded, so the model skips the
byte round-trip and decodes the intermediate JSON value directly. -/
def unmarshalInto (t : Ty) (j : Jval) : Except CErr Val :=
  match decodeVal t j with
  | some w => .ok w
  | none => .error .unmarshal

/-- `convertToType` from the scalar accessors: build an intermediate JSON
value (`json.Marshal` of a derived Go value) and then `json.Unmarshal` it
into the destination.  Faithfully to the source's switch: a map destination
marshals the raw string itself (producing a JSON string, not a document);
`reflect.Array | reflect.Slice` is the bitwise-or of the two kind
constants, which equals `reflect.Slice`, so only slices take the split
branch; only the plain `int` kind has an integer case (`strconv.Atoi`);
all remaining kinds — including every other integer width — fall to the
`default` branch, which also marshals the raw string. -/
def convertToType (t : Ty) (val : String) : Except CErr Val :=
  match t with
  | .map t' => unmarshalInto (.map t') (.str val)
  | .slice t' => unmarshalInto (.slice t') (.arr ((goSplit ',' val).map Jval.str))
  | .str => unmarshalInto .str (.str val)
  | .bool =>
    match parseBool val with
    | some b => unmarshalInto .bool (.bool b)
    | none => .error (.parseBool val)
  | .int .iDefault =>
    match parseInt64 val with
    | some i => unmarshalInto (.int .iDefault) (.num i true (toString i))
    | none => .error (.parseInt val)
  | .int w => unmarshalInto (.int w) (.str val)
  | .uint w => unmarshalInto (.uint w) (.str val)
  | .other => unmarshalInto .other (.str val)

/-- The read-only request view the binding core consumes: `body` is the
request body stream (`none` models a nil `Body`), `pathParams` the router's
bound path parameters (`ctx.Param` yields "" for unknown names), `query`
the URL's parsed query multi-map, and `headers` the header map
(`Header.Get` yields the first value, or "" when absent). -/
structure Request where
  body : Option String
  pathParams : List (String × String)
  query : List (String × List String)
  headers : List (String × List String)

/-- `http.Header.Get`: first value registered under the key, or "". -/
def headerGet (hs : List (String × List String)) (k : String) : String :=
  match lookupD hs k [] with
  | v :: _ => v
  | [] => ""

/-- One destination struct field as `FillStruct` sees it through
reflection: its name, whether it is settable, its raw `in` tag (if any),
its type descriptor, and its current value. -/
structure GField where
  name : String
  canSet : Bool
  inTag : Option String
  ty : Ty
  val : Val

/-- Errors `FillStruct` returns, one constructor per `return` site. -/
inductive FsErr where
  | bodyDecode
  | invalidTag (field : String)
  | unsupportedSource (source : String)
  | missingField (field : String)
  | setField (field : String) (e : CErr)
deriving DecidableEq

/-- Tag parsing in `FillStruct`: split on ";", split the first part on "="
into at most two pieces (exactly two required), and mark the field required
when any later part lower-cases to "required". -/
def parseInTag (tag : String) : Option (String × String × Bool) :=
  let parts := goSplit ';' tag
  match goSplitN2 '=' (parts.headD "") with
  | [source, key] =>
    some (source, key, (parts.drop 1).any fun p => strToLower p = "required")
  | _ => none

/-- The `switch source` of `FillStruct`: resolve one raw value from the
request, `none` signalling the unsupported-source error.  `query` uses the
multi-map: absent gives "", a single value is used as-is, several values
are joined with ",".  `body` looks the key up in the decoded body map and
renders the JSON value with `%v`; an absent key leaves the raw value "". -/
def fieldRawVal (req : Request) (bodyMap : List (String × Jval))
    (source key : String) : Option String :=
  if source = "path" then some (lookupD req.pathParams key "")
  else if source = "query" then
    some
      (match lookupD req.query key [] with
       | [] => ""
       | [v] => v
       | vs => goJoin ',' vs)
  else if source = "body" then
    some
      (match lookupLast bodyMap key with
       | some j => fmtV j
       | none => "")
  else if source = "header" then some (headerGet req.headers key)
  else none

/-- Processing of one field inside `FillStruct`'s loop: `ok none` means the
field was skipped (not settable, untagged, or optional with an empty raw
value) and keeps its pre-call value; `ok (some v)` means it is assigned
`v`; `error e` aborts the whole call. -/
def fillField (req : Request) (bodyMap : List (String × Jval))
    (f : GField) : Except FsErr (Option Val) :=
  if f.canSet = false then .ok none
  else
    match f.inTag with
    | none => .ok none
    | some tag =>
      match parseInTag tag with
      | none => .error (.invalidTag f.name)
      | some (source, key, required) =>
        match fieldRawVal req bodyMap source key with
        | none => .error (.unsupportedSource source)
        | some val =>
          if required = true ∧ val = "" then .error (.missingField f.name)
          else if val ≠ "" then
            match setFieldValue f.ty val with
            | .ok v => .ok (some v)
            | .error e => .error (.setField f.name e)
          else .ok none

/-- The effect of a successfully processed field on the struct: the
assigned value when one was assigned, the pre-call value otherwise. -/
def applyField (req : Request) (bodyMap : List (String × Jval))
    (f : GField) : GField :=
  match fillField req bodyMap f with
  | .ok (some v) => { f with val := v }
  | _ => f

/-- `FillStruct`'s field loop: process fields in declaration order,
stopping at the first error; on an error the erroring field and all later
fields keep their current values. -/
def fillFields (req : Request) (bodyMap : List (String × Jval)) :
    List GField → List GField × Option FsErr
  | [] => ([], none)
  | f :: rest =>
    match fillField req bodyMap f with
    | .error e => (f :: rest, some e)
    | .ok _ =>
      (applyField req bodyMap f :: (fillFields req bodyMap rest).1,
       (fillFields req bodyMap rest).2)

/-- The body-decoding prologue of `FillStruct`: a nil body is skipped; one
`Decode` call on the stream tolerates `io.EOF` (empty/whitespace-only
body), yields the object's members for a JSON object, sets the map to nil
for a JSON `null`, and fails otherwise (syntax error or a non-object
top-level value). -/
def goBodyDecode : Option String → Except Unit (List (String × Jval))
  | none => .ok []
  | some s =>
    match goDecodeOne s with
    | .eof => .ok []
    | .val .null => .ok []
    | .val (.obj kvs) => .ok kvs
    | .val _ => .error ()
    | .bad => .error ()

/-- `FillStruct` from request/request.go, as a function from the request
and the pre-call field list to the post-call field list and the reported
error (if any). -/
def FillStruct (req : Request) (fields : List GField) :
    List GField × Option FsErr :=
  match goBodyDecode req.body with
  | .error _ => (fields, some .bodyDecode)
  | .ok bodyMap => fillFields req bodyMap fields

/-- Errors of the scalar accessors. -/
inductive AccErr where
  | notFound (key : String)
  | conv (e : CErr)
deriving DecidableEq

/-- `GetQueryParam`: look the key up in the query multi-map; when no value
is registered, succeed leaving the destination untouched if `optional`,
else fail with the not-found error; otherwise join the values with "," and
convert. -/
def GetQueryParam (req : Request) (key : String) (t : Ty) (cur : Val)
    (optional : Bool) : Except AccErr Val :=
  match lookupD req.query key [] with
  | [] => if optional then .ok cur else .error (.notFound key)
  | vs =>
    match convertToType t (goJoin ',' vs) with
    | .ok v => .ok v
    | .error e => .error (.conv e)

/-- `GetHeaderParams`: identical contract, sourced from the headers via
`Header.Get` (absent and explicitly-empty are both ""). -/
def GetHeaderParams (req : Request) (key : String) (t : Ty) (cur : Val)
    (optional : Bool) : Except AccErr Val :=
  let vals := headerGet req.headers key
  if vals = "" then
    if optional then .ok cur else .error (.notFound key)
  else
    match convertToType t vals with
    | .ok v => .ok v
    | .error e => .error (.conv e)

/-! Helper lemmas about the Go string and parsing primitives. -/

theorem str_eq_of_data {s t : String} (h : s.data = t.data) : s = t :=
  congrArg String.mk h

theorem strData_append (s t : String) : (s ++ t).data = s.data ++ t.data := rfl

theorem splitCh_ne_nil (c : Char) (l : List Char) : splitCh c l ≠ [] := by
  induction l with
  | nil => simp [splitCh]
  | cons x rest ih =>
    simp only [splitCh]
    cases h : splitCh c rest with
    | nil => simp
    | cons g gs =>
      by_cases hx : x = c <;> simp [hx]

theorem splitCh_not_mem {c : Char} {l : List Char} (h : c ∉ l) : splitCh c l = [l] := by
  induction l with
  | nil => rfl
  | cons x rest ih =>
    have hx : ¬x = c := fun he => h (he ▸ List.mem_cons_self x rest)
    have hr : c ∉ rest := fun hm => h (List.mem_cons_of_mem _ hm)
    simp [splitCh, ih hr, hx]

theorem splitCh_append {c : Char} {l r : List Char} (h : c ∉ l) :
    splitCh c (l ++ c :: r) = l :: splitCh c r := by
  induction l with
  | nil =>
    simp only [List.nil_append, splitCh]
    cases h' : splitCh c r with
    | nil => exact absurd h' (splitCh_ne_nil c r)
    | cons g gs => simp
  | cons x xs ih =>
    have hx : ¬x = c := fun he => h (he ▸ List.mem_cons_self x xs)
    have hr : c ∉ xs := fun hm => h (List.mem_cons_of_mem _ hm)
    show (match splitCh c (xs ++ c :: r) with
          | [] => [[]]
          | g :: gs => if x = c then [] :: g :: gs else (x :: g) :: gs)
        = (x :: xs) :: splitCh c r
    rw [ih hr]
    simp [hx]

theorem joinCh_cons₂ (c : Char) (a b : List Char) (t : List (List Char)) :
    joinCh c (a :: b :: t) = a ++ c :: joinCh c (b :: t) := rfl

theorem joinCh_splitCh (c : Char) (l : List Char) : joinCh c (splitCh c l) = l := by
  induction l with
  | nil => rfl
  | cons x rest ih =>
    simp only [splitCh]
    cases h : splitCh c rest with
    | nil => exact absurd h (splitCh_ne_nil c rest)
    | cons g gs =>
      rw [h] at ih
      by_cases hx : x = c
      · subst hx
        simp [joinCh_cons₂, ih]
      · simp only [hx, if_false]
        cases gs with
        | nil => simpa only [joinCh] using congrArg (x :: ·) ih
        | cons b t => simpa only [joinCh_cons₂] using congrArg (x :: ·) ih

theorem goJoin_singleton (c : Char) (s : String) : goJoin c [s] = s := rfl

theorem goJoin_three (a b c : String) :
    goJoin ',' [a, b, c] = a ++ "," ++ b ++ "," ++ c := by
  apply str_eq_of_data
  show a.data ++ ',' :: (b.data ++ ',' :: c.data) = _
  simp [strData_append]

theorem goSplit_three {a b c : String} (ha : ',' ∉ a.data) (hb : ',' ∉ b.data)
    (hc : ',' ∉ c.data) :
    goSplit ',' (a ++ "," ++ b ++ "," ++ c) = [a, b, c] := by
  unfold goSplit
  have hd : (a ++ "," ++ b ++ "," ++ c).data
      = a.data ++ ',' :: (b.data ++ ',' :: c.data) := by
    simp [strData_append]
  rw [hd, splitCh_append ha, splitCh_append hb, splitCh_not_mem hc]
  rfl

theorem goSplit_ne_nil (c : Char) (s : String) : goSplit c s ≠ [] := by
  unfold goSplit
  intro h
  exact splitCh_ne_nil c s.data (List.map_eq_nil_iff.mp h)

theorem parseInt64_range {s : String} {i : Int} (h : parseInt64 s = some i) :
    -(2 ^ 63 : Int) ≤ i ∧ i < (2 ^ 63 : Int) := by
  unfold parseInt64 at h
  cases hp : parseIntRaw s.data with
  | none => rw [hp] at h; cases h
  | some j =>
    rw [hp] at h
    change (if -(2 ^ 63 : Int) ≤ j ∧ j < (2 ^ 63 : Int) then some j else none)
        = some i at h
    split at h
    · rename_i hr
      cases h
      exact hr
    · cases h

theorem elemLoop_ok {f : String → Except CErr Val} {l : List String} {xs : List Val}
    (h : l.map f = xs.map Except.ok) : elemLoop f l = .ok xs := by
  induction l generalizing xs with
  | nil =>
    cases xs with
    | nil => rfl
    | cons x xt => simp at h
  | cons p ps ih =>
    cases xs with
    | nil => simp at h
    | cons x xt =>
      simp only [List.map_cons, List.cons.injEq] at h
      obtain ⟨h1, h2⟩ := h
      simp [elemLoop, h1, ih h2]

theorem elemLoop_error {f : String → Except CErr Val} {pre : List String}
    {p : String} {post : List String} {e : CErr}
    (hpre : ∀ q ∈ pre, ∃ w, f q = .ok w) (hp : f p = .error e) :
    elemLoop f (pre ++ p :: post) = .error e := by
  induction pre with
  | nil => simp [elemLoop, hp]
  | cons q qs ih =>
    obtain ⟨w, hw⟩ := hpre q (List.mem_cons_self q qs)
    have ih' := ih fun r hr => hpre r (List.mem_cons_of_mem _ hr)
    simp [elemLoop, hw, ih']

theorem elemLoop_str (l : List String) :
    elemLoop (setFieldValue Ty.str) l = .ok (l.map Val.str) := by
  induction l with
  | nil => rfl
  | cons s t ih =>
    have h1 : setFieldValue Ty.str s = .ok (.str s) := rfl
    simp [elemLoop, h1, ih]

theorem decodeItems_str (l : List String) :
    decodeItems Ty.str (l.map Jval.str) = some (l.map Val.str) := by
  induction l with
  | nil => rfl
  | cons s t ih =>
    have h1 : decodeVal Ty.str (Jval.str s) = some (Val.str s) := rfl
    simp [decodeItems, h1, ih]

theorem fillFields_append_ok {req : Request} {bm : List (String × Jval)}
    {pre rest : List GField}
    (h : ∀ g ∈ pre, ∃ o, fillField req bm g = .ok o) :
    fillFields req bm (pre ++ rest)
      = (pre.map (applyField req bm) ++ (fillFields req bm rest).1,
         (fillFields req bm rest).2) := by
  induction pre with
  | nil => simp
  | cons f fs ih =>
    obtain ⟨o, ho⟩ := h f (List.mem_cons_self f fs)
    have ih' := ih fun g hg => h g (List.mem_cons_of_mem f hg)
    simp [fillFields, ho, ih']

theorem fillFields_error {req : Request} {bm : List (String × Jval)}
    {fs fs' : List GField} {e : FsErr}
    (h : fillFields req bm fs = (fs', some e)) :
    ∃ pre f post,
      fs = pre ++ f :: post ∧
      fs' = pre.map (applyField req bm) ++ f :: post ∧
      (∀ g ∈ pre, ∃ o, fillField req bm g = .ok o) ∧
      fillField req bm f = .error e := by
  induction fs generalizing fs' with
  | nil => simp [fillFields] at h
  | cons f rest ih =>
    cases hf : fillField req bm f with
    | error e' =>
      simp only [fillFields, hf, Prod.mk.injEq, Option.some.injEq] at h
      obtain ⟨h1, h2⟩ := h
      exact ⟨[], f, rest, rfl, by simp [h1], by simp, by rw [hf, h2]⟩
    | ok o =>
      simp only [fillFields, hf, Prod.mk.injEq] at h
      obtain ⟨h1, h2⟩ := h
      have hrest : fillFields req bm rest = ((fillFields req bm rest).1, some e) := by
        rw [← h2]
      obtain ⟨pre, g, post, hsplit, hres, hpre, hg⟩ := ih hrest
      refine ⟨f :: pre, g, post, by simp [hsplit], ?_, ?_, hg⟩
      · simp only [List.map_cons, List.cons_append, ← h1, hres]
      · intro q hq
        rcases List.mem_cons.mp hq with hq1 | hq2
        · exact ⟨o, hq1 ▸ hf⟩
        · exact hpre q hq2

theorem fillField_resolved {req : Request} {bm : List (String × Jval)} {f : GField}
    {tag source key : String} {required : Bool} {val : String}
    (hset : f.canSet = true) (htag : f.inTag = some tag)
    (hparse : parseInTag tag = some (source, key, required))
    (hraw : fieldRawVal req bm source key = some val) :
    fillField req bm f =
      (if required = true ∧ val = "" then .error (.missingField f.name)
       else if val ≠ "" then
         match setFieldValue f.ty val with
         | .ok v => .ok (some v)
         | .error e => .error (.setField f.name e)
       else .ok none) := by
  unfold fillField
  rw [hset, htag]
  show (match parseInTag tag with
        | none => Except.error (FsErr.invalidTag f.name)
        | some (source, key, required) =>
          match fieldRawVal req bm source key with
          | none => Except.error (FsErr.unsupportedSource source)
          | some val =>
            if required = true ∧ val = "" then Except.error (FsErr.missingField f.name)
            else if val ≠ "" then
              match setFieldValue f.ty val with
              | Except.ok v => Except.ok (some v)
              | Except.error e => Except.error (FsErr.setField f.name e)
            else Except.ok none) = _
  rw [hparse]
  show (match fieldRawVal req bm source key with
        | none => Except.error (FsErr.unsupportedSource source)
        | some val =>
          if required = true ∧ val = "" then Except.error (FsErr.missingField f.name)
          else if val ≠ "" then
            match setFieldValue f.ty val with
            | Except.ok v => Except.ok (some v)
            | Except.error e => Except.error (FsErr.setField f.name e)
          else Except.ok none) = _
  rw [hraw]

theorem convertToType_slice_str (v : String) :
    convertToType (.slice .str) v = .ok (.slice ((goSplit ',' v).map Val.str)) := by
  have h1 : decodeItems Ty.str ((goSplit ',' v).map Jval.str)
      = some ((goSplit ',' v).map Val.str) := decodeItems_str _
  show (match decodeVal (.slice Ty.str) (.arr ((goSplit ',' v).map Jval.str)) with
        | some w => Except.ok w
        | none => Except.error CErr.unmarshal) = _
  show (match (match decodeItems Ty.str ((goSplit ',' v).map Jval.str) with
              | some vs => some (Val.slice vs)
              | none => none) with
        | some w => Except.ok w
        | none => Except.error CErr.unmarshal) = _
  rw [h1]

theorem setFieldValue_slice_str (v : String) :
    setFieldValue (.slice .str) v = .ok (.slice ((goSplit ',' v).map Val.str)) := by
  have h1 := elemLoop_str (goSplit ',' v)
  show (match elemLoop (setFieldValue Ty.str) (goSplit ',' v) with
        | .ok xs => Except.ok (Val.slice xs)
        | .error e => Except.error e) = _
  rw [h1]

theorem fieldRawVal_query (req : Request) (bm : List (String × Jval)) (key : String) :
    fieldRawVal req bm "query" key
      = some
          (match lookupD req.query key [] with
           | [] => ""
           | [v] => v
           | vs => goJoin ',' vs) := rfl

theorem parseInTag_query (key : String) (hk : ';' ∉ key.data) :
    parseInTag ("query=" ++ key) = some ("query", key, false) := by
  have hsplit : goSplit ';' ("query=" ++ key) = ["query=" ++ key] := by
    unfold goSplit
    rw [splitCh_not_mem ?hmem]
    case hmem =>
      rw [strData_append]
      intro hm
      rcases List.mem_append.mp hm with h1 | h2
      · exact absurd h1 (by decide)
      · exact hk h2
    rfl
  have hd : ("query=" ++ key).data = "query".data ++ '=' :: key.data := by
    rw [strData_append]
    rfl
  have hsn : goSplitN2 '=' ("query=" ++ key) = ["query", key] := by
    unfold goSplitN2
    rw [hd, splitCh_append (by decide)]
    have hj := joinCh_splitCh '=' key.data
    cases hsp : splitCh '=' key.data with
    | nil => exact absurd hsp (splitCh_ne_nil _ _)
    | cons g gs =>
      rw [hsp] at hj
      show [String.mk "query".data, String.mk (joinCh '=' (g :: gs))] = ["query", key]
      rw [hj]
  unfold parseInTag
  rw [hsplit]
  show (match goSplitN2 '=' ("query=" ++ key) with
        | [source, key'] => some (source, key', List.any [] fun p => strToLower p = "required")
        | _ => none) = _
  rw [hsn]
  rfl

theorem str_append3_ne_empty (a b c : String) : a ++ "," ++ b ++ "," ++ c ≠ "" := by
  intro h
  have hd := congrArg String.data h
  rw [show (a ++ "," ++ b ++ "," ++ c).data
      = a.data ++ ',' :: (b.data ++ ',' :: c.data) from by simp [strData_append]] at hd
  simp at hd

theorem goBodyDecode_bad {s : String} (h : goDecodeOne s = .bad) :
    goBodyDecode (some s) = .error () := by
  simp only [goBodyDecode, h]

theorem goBodyDecode_eof {s : String} (h : goDecodeOne s = .eof) :
    goBodyDecode (some s) = .ok [] := by
  simp only [goBodyDecode, h]

/-! The claims. -/

/-- C1: in a `FillStruct` run whose body decoded successfully and whose
fields before `f` all process without error, a field `f` whose declaration
resolves to an empty raw value makes the call fail with the missing-field
error naming `f` when its declaration marks it required, and leaves `f` at
its pre-call value with the call's outcome determined entirely by the
remaining fields when it is optional. -/
theorem c1_required_missing_optional_kept
    (req : Request) (bm : List (String × Jval)) (pre post : List GField)
    (f : GField) (tag source key : String) (required : Bool)
    (hbm : goBodyDecode req.body = .ok bm)
    (hpre : ∀ g ∈ pre, ∃ o, fillField req bm g = .ok o)
    (hset : f.canSet = true) (htag : f.inTag = some tag)
    (hparse : parseInTag tag = some (source, key, required))
    (hraw : fieldRawVal req bm source key = some "") :
    (required = true →
      FillStruct req (pre ++ f :: post)
        = (pre.map (applyField req bm) ++ f :: post,
           some (.missingField f.name))) ∧
    (required = false →
      FillStruct req (pre ++ f :: post)
        = (pre.map (applyField req bm) ++ f :: (fillFields req bm post).1,
           (fillFields req bm post).2)) := by
  have hff := fillField_resolved hset htag hparse hraw
  constructor
  · intro hreq
    subst hreq
    rw [if_pos ⟨rfl, rfl⟩] at hff
    unfold FillStruct
    rw [hbm]
    show fillFields req bm (pre ++ f :: post) = _
    rw [fillFields_append_ok hpre]
    simp [fillFields, hff]
  · intro hreq
    subst hreq
    have hff' : fillField req bm f = .ok none := by
      rw [hff, if_neg (by simp), if_neg (by simp)]
    have happ : applyField req bm f = f := by
      unfold applyField
      rw [hff']
    unfold FillStruct
    rw [hbm]
    show fillFields req bm (pre ++ f :: post) = _
    rw [fillFields_append_ok hpre]
    simp [fillFields, hff', happ]

/-- C1 witness: a lone required query field with no value fails with the
missing-field error; a lone optional one leaves the pre-call value. -/
theorem c1_witness :
    FillStruct ⟨none, [], [], []⟩
        [⟨"Page", true, some "query=page;required", Ty.str, Val.str "init"⟩]
      = ([⟨"Page", true, some "query=page;required", Ty.str, Val.str "init"⟩],
         some (FsErr.missingField "Page")) ∧
    FillStruct ⟨none, [], [], []⟩
        [⟨"Tag", true, some "query=tag", Ty.str, Val.str "keep"⟩]
      = ([⟨"Tag", true, some "query=tag", Ty.str, Val.str "keep"⟩], none) :=
  ⟨(c1_required_missing_optional_kept ⟨none, [], [], []⟩ [] [] []
      ⟨"Page", true, some "query=page;required", Ty.str, Val.str "init"⟩
      "query=page;required" "query" "page" true rfl (by simp) rfl rfl rfl rfl).1 rfl,
   (c1_required_missing_optional_kept ⟨none, [], [], []⟩ [] [] []
      ⟨"Tag", true, some "query=tag", Ty.str, Val.str "keep"⟩
      "query=tag" "query" "tag" false rfl (by simp) rfl rfl rfl rfl).2 rfl⟩

/-- C2: whenever `FillStruct` reports an error, either the body failed to
decode (and every field keeps its pre-call value), or the field list splits
as `pre ++ f :: post` where every field of `pre` processed without error
(each keeping its own assigned or pre-call value), `f` is the first and
only erroring field and its error is the one reported, and `f` and all of
`post` keep their pre-call values — fail-fast with no rollback. -/
theorem c2_fail_fast_first_error
    (req : Request) (fs fs' : List GField) (e : FsErr)
    (h : FillStruct req fs = (fs', some e)) :
    (e = .bodyDecode ∧ fs' = fs) ∨
    ∃ bm pre f post,
      goBodyDecode req.body = .ok bm ∧
      fs = pre ++ f :: post ∧
      fs' = pre.map (applyField req bm) ++ f :: post ∧
      (∀ g ∈ pre, ∃ o, fillField req bm g = .ok o) ∧
      fillField req bm f = .error e := by
  unfold FillStruct at h
  cases hb : goBodyDecode req.body with
  | error u =>
    rw [hb] at h
    simp only [Prod.mk.injEq, Option.some.injEq] at h
    exact Or.inl ⟨h.2.symm, h.1.symm⟩
  | ok bm =>
    rw [hb] at h
    obtain ⟨pre, f, post, hs, hr, hp, hf⟩ := fillFields_error h
    exact Or.inr ⟨bm, pre, f, post, rfl, hs, hr, hp, hf⟩

/-- C2 witness: a two-field struct where the second field's required value
is missing — the first field keeps its assigned value, the second is the
first and only reported error. -/
theorem c2_witness :
    (FsErr.missingField "B" = FsErr.bodyDecode ∧
      ([⟨"A", true, some "query=a", Ty.str, Val.str "x"⟩,
        ⟨"B", true, some "query=b;required", Ty.str, Val.str ""⟩] : List GField)
        = [⟨"A", true, some "query=a", Ty.str, Val.str ""⟩,
           ⟨"B", true, some "query=b;required", Ty.str, Val.str ""⟩]) ∨
    ∃ bm pre f post,
      goBodyDecode (⟨none, [], [("a", ["x"])], []⟩ : Request).body = .ok bm ∧
      ([⟨"A", true, some "query=a", Ty.str, Val.str ""⟩,
        ⟨"B", true, some "query=b;required", Ty.str, Val.str ""⟩] : List GField)
        = pre ++ f :: post ∧
      [⟨"A", true, some "query=a", Ty.str, Val.str "x"⟩,
        ⟨"B", true, some "query=b;required", Ty.str, Val.str ""⟩]
        = pre.map (applyField ⟨none, [], [("a", ["x"])], []⟩ bm) ++ f :: post ∧
      (∀ g ∈ pre, ∃ o, fillField ⟨none, [], [("a", ["x"])], []⟩ bm g = .ok o) ∧
      fillField ⟨none, [], [("a", ["x"])], []⟩ bm f
        = .error (FsErr.missingField "B") :=
  c2_fail_fast_first_error ⟨none, [], [("a", ["x"])], []⟩
    [⟨"A", true, some "query=a", Ty.str, Val.str ""⟩,
     ⟨"B", true, some "query=b;required", Ty.str, Val.str ""⟩]
    [⟨"A", true, some "query=a", Ty.str, Val.str "x"⟩,
     ⟨"B", true, some "query=b;required", Ty.str, Val.str ""⟩]
    (FsErr.missingField "B") rfl

/-- C3: a non-empty body that is not valid JSON makes `FillStruct` fail
with the body-decode error before any field is touched, whatever the field
list (in particular when no field uses the body origin); an absent body or
one that only yields end-of-file proceeds as a normal run over the empty
body mapping. -/
theorem c3_body_decode_gate (req : Request) (fs : List GField) :
    (∀ s, req.body = some s → goDecodeOne s = .bad →
      FillStruct req fs = (fs, some .bodyDecode)) ∧
    (req.body = none → FillStruct req fs = fillFields req [] fs) ∧
    (∀ s, req.body = some s → goDecodeOne s = .eof →
      FillStruct req fs = fillFields req [] fs) := by
  refine ⟨?_, ?_, ?_⟩
  · intro s hs hbad
    unfold FillStruct
    rw [hs, goBodyDecode_bad hbad]
  · intro hn
    unfold FillStruct
    rw [hn]
    rfl
  · intro s hs heof
    unfold FillStruct
    rw [hs, goBodyDecode_eof heof]

/-- C3 witness: a malformed body aborts a call whose only field reads from
the query, leaving it untouched; a whitespace-only body proceeds with the
empty body mapping. -/
theorem c3_witness :
    FillStruct ⟨some "\x7boops", [], [("a", ["v"])], []⟩
        [⟨"A", true, some "query=a", Ty.str, Val.str "z"⟩]
      = ([⟨"A", true, some "query=a", Ty.str, Val.str "z"⟩],
         some FsErr.bodyDecode) ∧
    FillStruct ⟨some "  ", [], [], []⟩ []
      = fillFields ⟨some "  ", [], [], []⟩ [] [] :=
  ⟨(c3_body_decode_gate ⟨some "\x7boops", [], [("a", ["v"])], []⟩
      [⟨"A", true, some "query=a", Ty.str, Val.str "z"⟩]).1 "\x7boops" rfl rfl,
   (c3_body_decode_gate ⟨some "  ", [], [], []⟩ []).2.2 "  " rfl rfl⟩

/-- C9: with no value registered under the key, `GetQueryParam` succeeds
leaving the destination at its pre-call value when `optional` is true and
fails with the not-found error when it is false; `GetHeaderParams`
satisfies the identical contract for its header key. -/
theorem c9_optional_contract (req : Request) (key : String) (t : Ty) (cur : Val) :
    (lookupD req.query key [] = [] →
      GetQueryParam req key t cur true = .ok cur ∧
      GetQueryParam req key t cur false = .error (.notFound key)) ∧
    (headerGet req.headers key = "" →
      GetHeaderParams req key t cur true = .ok cur ∧
      GetHeaderParams req key t cur false = .error (.notFound key)) := by
  constructor
  · intro h
    constructor <;> simp [GetQueryParam, h]
  · intro h
    constructor <;> simp [GetHeaderParams, h]

/-- C9 witness: both accessors at a key absent from an empty request. -/
theorem c9_witness :
    GetQueryParam ⟨none, [], [], []⟩ "q" Ty.str (Val.str "pre") true
      = .ok (Val.str "pre") ∧
    GetQueryParam ⟨none, [], [], []⟩ "q" Ty.str (Val.str "pre") false
      = .error (AccErr.notFound "q") ∧
    GetHeaderParams ⟨none, [], [], []⟩ "H" Ty.str (Val.str "pre") true
      = .ok (Val.str "pre") ∧
    GetHeaderParams ⟨none, [], [], []⟩ "H" Ty.str (Val.str "pre") false
      = .error (AccErr.notFound "H") :=
  ⟨((c9_optional_contract ⟨none, [], [], []⟩ "q" Ty.str (Val.str "pre")).1 rfl).1,
   ((c9_optional_contract ⟨none, [], [], []⟩ "q" Ty.str (Val.str "pre")).1 rfl).2,
   ((c9_optional_contract ⟨none, [], [], []⟩ "H" Ty.str (Val.str "pre")).2 rfl).1,
   ((c9_optional_contract ⟨none, [], [], []⟩ "H" Ty.str (Val.str "pre")).2 rfl).2⟩

/-- C10: `FillStruct` never distinguishes an explicitly supplied empty
value from an absent one: two requests whose resolved raw value for a
field's declaration are both empty are processed identically for that
field, the field is never assigned (required makes the call fail as
missing, optional keeps the pre-call value). -/
theorem c10_explicit_empty_is_absent
    (req1 req2 : Request) (bm1 bm2 : List (String × Jval)) (f : GField)
    (tag source key : String) (required : Bool)
    (hset : f.canSet = true) (htag : f.inTag = some tag)
    (hparse : parseInTag tag = some (source, key, required))
    (h1 : fieldRawVal req1 bm1 source key = some "")
    (h2 : fieldRawVal req2 bm2 source key = some "") :
    fillField req1 bm1 f = fillField req2 bm2 f ∧
    (required = true → fillField req1 bm1 f = .error (.missingField f.name)) ∧
    (required = false → fillField req1 bm1 f = .ok none) := by
  have e1 := fillField_resolved hset htag hparse h1
  have e2 := fillField_resolved hset htag hparse h2
  refine ⟨e1.trans e2.symm, ?_, ?_⟩
  · intro hreq
    subst hreq
    rw [e1, if_pos ⟨rfl, rfl⟩]
  · intro hreq
    subst hreq
    rw [e1, if_neg (by simp), if_neg (by simp)]

/-- C10 witness: a query key explicitly carrying the empty value and the
same key absent behave identically — required fails as missing, optional
is not assigned. -/
theorem c10_witness :
    fillField ⟨none, [], [("q", [""])], []⟩ []
        ⟨"Q", true, some "query=q;required", Ty.str, Val.str "keep"⟩
      = fillField ⟨none, [], [], []⟩ []
        ⟨"Q", true, some "query=q;required", Ty.str, Val.str "keep"⟩ ∧
    fillField ⟨none, [], [("q", [""])], []⟩ []
        ⟨"Q", true, some "query=q;required", Ty.str, Val.str "keep"⟩
      = .error (FsErr.missingField "Q") ∧
    fillField ⟨none, [], [("q", [""])], []⟩ []
        ⟨"R", true, some "query=q", Ty.str, Val.str "keep"⟩ = .ok none :=
  ⟨(c10_explicit_empty_is_absent ⟨none, [], [("q", [""])], []⟩ ⟨none, [], [], []⟩
      [] [] ⟨"Q", true, some "query=q;required", Ty.str, Val.str "keep"⟩
      "query=q;required" "query" "q" true rfl rfl rfl rfl rfl).1,
   (c10_explicit_empty_is_absent ⟨none, [], [("q", [""])], []⟩ ⟨none, [], [], []⟩
      [] [] ⟨"Q", true, some "query=q;required", Ty.str, Val.str "keep"⟩
      "query=q;required" "query" "q" true rfl rfl rfl rfl rfl).2.1 rfl,
   (c10_explicit_empty_is_absent ⟨none, [], [("q", [""])], []⟩ ⟨none, [], [], []⟩
      [] [] ⟨"R", true, some "query=q", Ty.str, Val.str "keep"⟩
      "query=q" "query" "q" false rfl rfl rfl rfl rfl).2.2 rfl⟩

/-- C4: for comma-free strings `a`, `b`, `c`, a query string carrying the
single value `a,b,c` under a key and one carrying the three repeated
values `a`, `b`, `c` bind a sequence-of-string destination to the
identical ordered result `[a, b, c]`, both through `GetQueryParam` and
through `FillStruct` with a query-origin slice field. -/
theorem c4_query_comma_vs_repeated
    (key a b c : String) (req1 req2 : Request)
    (bm1 bm2 : List (String × Jval)) (cur1 cur2 : Val)
    (f1 f2 : GField) (o1 o2 : Bool)
    (ha : ',' ∉ a.data) (hb : ',' ∉ b.data) (hc : ',' ∉ c.data)
    (hk : ';' ∉ key.data)
    (hq1 : lookupD req1.query key [] = [a ++ "," ++ b ++ "," ++ c])
    (hq2 : lookupD req2.query key [] = [a, b, c])
    (hbody1 : goBodyDecode req1.body = .ok bm1)
    (hbody2 : goBodyDecode req2.body = .ok bm2)
    (hs1 : f1.canSet = true) (ht1 : f1.inTag = some ("query=" ++ key))
    (hty1 : f1.ty = .slice .str)
    (hs2 : f2.canSet = true) (ht2 : f2.inTag = some ("query=" ++ key))
    (hty2 : f2.ty = .slice .str) :
    GetQueryParam req1 key (.slice .str) cur1 o1
        = .ok (.slice [.str a, .str b, .str c]) ∧
    GetQueryParam req2 key (.slice .str) cur2 o2
        = .ok (.slice [.str a, .str b, .str c]) ∧
    FillStruct req1 [f1]
        = ([{ f1 with val := .slice [.str a, .str b, .str c] }], none) ∧
    FillStruct req2 [f2]
        = ([{ f2 with val := .slice [.str a, .str b, .str c] }], none) := by
  have hsplit : goSplit ',' (a ++ "," ++ b ++ "," ++ c) = [a, b, c] :=
    goSplit_three ha hb hc
  have hjoin : goJoin ',' [a, b, c] = a ++ "," ++ b ++ "," ++ c := goJoin_three a b c
  have hconv : convertToType (.slice .str) (a ++ "," ++ b ++ "," ++ c)
      = .ok (.slice [.str a, .str b, .str c]) := by
    rw [convertToType_slice_str, hsplit]
    rfl
  have hne : (a ++ "," ++ b ++ "," ++ c) ≠ "" := str_append3_ne_empty a b c
  have hsfv : setFieldValue (.slice .str) (a ++ "," ++ b ++ "," ++ c)
      = .ok (.slice [.str a, .str b, .str c]) := by
    rw [setFieldValue_slice_str, hsplit]
    rfl
  have fill : ∀ (req : Request) (bm : List (String × Jval)) (f : GField),
      goBodyDecode req.body = .ok bm → f.canSet = true →
      f.inTag = some ("query=" ++ key) → f.ty = .slice .str →
      fieldRawVal req bm "query" key = some (a ++ "," ++ b ++ "," ++ c) →
      FillStruct req [f]
        = ([{ f with val := .slice [.str a, .str b, .str c] }], none) := by
    intro req bm f hbody hfs hft hfty hraw
    have hff := fillField_resolved hfs hft (parseInTag_query key hk) hraw
    have hff' : fillField req bm f
        = .ok (some (.slice [.str a, .str b, .str c])) := by
      rw [hff, if_neg (by simp), if_pos hne, hfty, hsfv]
    have happ : applyField req bm f = { f with val := .slice [.str a, .str b, .str c] } := by
      unfold applyField
      rw [hff']
    unfold FillStruct
    rw [hbody]
    simp [fillFields, hff', happ]
  refine ⟨?_, ?_, ?_, ?_⟩
  · unfold GetQueryParam
    rw [hq1]
    show (match convertToType (.slice .str)
            (goJoin ',' [a ++ "," ++ b ++ "," ++ c]) with
          | .ok v => Except.ok v
          | .error e => Except.error (AccErr.conv e)) = _
    rw [goJoin_singleton, hconv]
  · unfold GetQueryParam
    rw [hq2]
    show (match convertToType (.slice .str) (goJoin ',' [a, b, c]) with
          | .ok v => Except.ok v
          | .error e => Except.error (AccErr.conv e)) = _
    rw [hjoin, hconv]
  · refine fill req1 bm1 f1 hbody1 hs1 ht1 hty1 ?_
    rw [fieldRawVal_query, hq1]
  · refine fill req2 bm2 f2 hbody2 hs2 ht2 hty2 ?_
    rw [fieldRawVal_query, hq2]
    show some (goJoin ',' [a, b, c]) = _
    rw [hjoin]

/-- C4 witness: key `k`, values `x`, `y`, `z` supplied as `x,y,z` and as
three repeated values. -/
theorem c4_witness :
    GetQueryParam ⟨none, [], [("k", ["x,y,z"])], []⟩ "k" (.slice .str)
        (Val.str "") false
      = .ok (.slice [.str "x", .str "y", .str "z"]) ∧
    GetQueryParam ⟨none, [], [("k", ["x", "y", "z"])], []⟩ "k" (.slice .str)
        (Val.str "") false
      = .ok (.slice [.str "x", .str "y", .str "z"]) ∧
    FillStruct ⟨none, [], [("k", ["x,y,z"])], []⟩
        [⟨"T", true, some "query=k", Ty.slice Ty.str, Val.slice []⟩]
      = ([⟨"T", true, some "query=k", Ty.slice Ty.str,
           Val.slice [Val.str "x", Val.str "y", Val.str "z"]⟩], none) ∧
    FillStruct ⟨none, [], [("k", ["x", "y", "z"])], []⟩
        [⟨"T", true, some "query=k", Ty.slice Ty.str, Val.slice []⟩]
      = ([⟨"T", true, some "query=k", Ty.slice Ty.str,
           Val.slice [Val.str "x", Val.str "y", Val.str "z"]⟩], none) :=
  c4_query_comma_vs_repeated "k" "x" "y" "z"
    ⟨none, [], [("k", ["x,y,z"])], []⟩ ⟨none, [], [("k", ["x", "y", "z"])], []⟩
    [] [] (Val.str "") (Val.str "")
    ⟨"T", true, some "query=k", Ty.slice Ty.str, Val.slice []⟩
    ⟨"T", true, some "query=k", Ty.slice Ty.str, Val.slice []⟩
    false false (by decide) (by decide) (by decide) (by decide)
    rfl rfl rfl rfl rfl rfl rfl rfl rfl rfl

/-- C5 counterexample: the raw value is well-formed JSON matching the
string-keyed-map shape — it parses, decodes into the shape, and the Struct
Binder's coercion accepts it — yet the Scalar Accessor's coercion
(`convertToType`) fails with a conversion error on it, refuting the claim
that coercion into a key-mapping destination succeeds exactly on
well-formed shape-matching JSON. -/
theorem c5_counterexample :
    goUnmarshal "\x7b\"a\":\"b\"\x7d" = some (Jval.obj [("a", Jval.str "b")]) ∧
    decodeVal (Ty.map Ty.str) (Jval.obj [("a", Jval.str "b")])
      = some (Val.vmap [("a", Val.str "b")]) ∧
    setFieldValue (Ty.map Ty.str) "\x7b\"a\":\"b\"\x7d"
      = .ok (Val.vmap [("a", Val.str "b")]) ∧
    convertToType (Ty.map Ty.str) "\x7b\"a\":\"b\"\x7d" = .error CErr.unmarshal :=
  ⟨rfl, rfl, rfl, rfl⟩

/-- C5 (amended): only the Struct Binder's coercion parses the raw value
as a JSON document and structurally decodes it into a key-mapping
destination (succeeding exactly on well-formed, shape-matching JSON, and
failing with a conversion error otherwise); a nested-structure destination
is rejected by the Struct Binder's coercion as an unsupported kind; and
the Scalar Accessor's coercion re-marshals the raw value as a JSON string,
so converting it into a key-mapping destination fails with a conversion
error for every raw value. -/
theorem c5_map_coercion_divergence (t : Ty) (v : String) :
    setFieldValue (.map t) v = specJsonCoerce (.map t) v ∧
    setFieldValue .other v = .error .unsupportedType ∧
    convertToType (.map t) v = .error .unmarshal :=
  ⟨rfl, rfl, rfl⟩

/-- C6 counterexample: a slice-of-int raw value failing at element index 0
and one failing at element index 1 produce the identical error — the
element's own parse error, with no index information — and the Scalar
Accessor's coercion rejects a perfectly convertible int list outright. -/
theorem c6_counterexample :
    setFieldValue (Ty.slice (Ty.int IW.iDefault)) "x,1"
      = .error (CErr.parseInt "x") ∧
    setFieldValue (Ty.slice (Ty.int IW.iDefault)) "1,x"
      = .error (CErr.parseInt "x") ∧
    convertToType (Ty.slice (Ty.int IW.iDefault)) "1,2" = .error CErr.unmarshal :=
  ⟨rfl, rfl, rfl⟩

/-- C6 (amended): the Struct Binder's coercion splits the raw value on ","
and recursively coerces each element, assigning the full slice exactly
when every element succeeds, and otherwise failing with the first failing
element's own conversion error, which carries no element index; the Scalar
Accessor's coercion instead JSON-decodes the split parts, so a
sequence-of-string destination receives them verbatim while an integer
element kind always fails. -/
theorem c6_slice_coercion_behavior (t : Ty) (w : IW) (v : String) :
    (∀ xs : List Val, (goSplit ',' v).map (setFieldValue t) = xs.map Except.ok →
      setFieldValue (.slice t) v = .ok (.slice xs)) ∧
    (∀ (pre : List String) (p : String) (post : List String) (e : CErr),
      goSplit ',' v = pre ++ p :: post →
      (∀ q ∈ pre, ∃ u, setFieldValue t q = .ok u) →
      setFieldValue t p = .error e →
      setFieldValue (.slice t) v = .error e) ∧
    convertToType (.slice .str) v = .ok (.slice ((goSplit ',' v).map Val.str)) ∧
    convertToType (.slice (.int w)) v = .error .unmarshal := by
  refine ⟨?_, ?_, convertToType_slice_str v, ?_⟩
  · intro xs h
    have hl := elemLoop_ok h
    show (match elemLoop (setFieldValue t) (goSplit ',' v) with
          | .ok xs => Except.ok (Val.slice xs)
          | .error e => Except.error e) = _
    rw [hl]
  · intro pre p post e hsp hpre hp
    have hl := @elemLoop_error (setFieldValue t) pre p post e hpre hp
    show (match elemLoop (setFieldValue t) (goSplit ',' v) with
          | .ok xs => Except.ok (Val.slice xs)
          | .error e => Except.error e) = _
    rw [hsp, hl]
  · cases hsp : goSplit ',' v with
    | nil => exact absurd hsp (goSplit_ne_nil ',' v)
    | cons p ps =>
      show unmarshalInto (.slice (.int w)) (.arr ((goSplit ',' v).map Jval.str)) = _
      rw [hsp]
      rfl

/-- C6 witness: the slice `7,9` of 16-bit ints converts elementwise; the
failing middle element of `7,zz,9` aborts with its own error. -/
theorem c6_witness :
    setFieldValue (Ty.slice (Ty.int IW.i16)) "7,9"
      = .ok (Val.slice [Val.intv IW.i16 7, Val.intv IW.i16 9]) ∧
    setFieldValue (Ty.slice (Ty.int IW.i16)) "7,zz,9"
      = .error (CErr.parseInt "zz") :=
  ⟨(c6_slice_coercion_behavior (Ty.int IW.i16) IW.i16 "7,9").1
      [Val.intv IW.i16 7, Val.intv IW.i16 9] rfl,
   (c6_slice_coercion_behavior (Ty.int IW.i16) IW.i16 "7,zz,9").2.1
      ["7"] "zz" ["9"] (CErr.parseInt "zz") rfl
      (by
        intro q hq
        cases List.mem_singleton.mp hq
        exact ⟨Val.intv IW.i16 7, rfl⟩)
      rfl⟩

/-- C7 counterexample: `tRuE` lower-cases to `true`, so a case-insensitive
boolean grammar accepts it, but both coercions reject it with a conversion
error (while the exactly-cased `true` is accepted). -/
theorem c7_counterexample :
    strToLower "tRuE" = "true" ∧
    setFieldValue Ty.bool "tRuE" = .error (CErr.parseBool "tRuE") ∧
    convertToType Ty.bool "tRuE" = .error (CErr.parseBool "tRuE") ∧
    setFieldValue Ty.bool "true" = .ok (Val.bool true) :=
  ⟨rfl, rfl, rfl, rfl⟩

/-- C7 (amended): boolean coercion accepts exactly the twelve Go
`strconv.ParseBool` literals `1,t,T,TRUE,true,True` (giving true) and
`0,f,F,FALSE,false,False` (giving false) — not arbitrary case variants —
and fails with a conversion error on every other raw value, including
`yes`; the Scalar Accessor's boolean coercion agrees with the Struct
Binder's everywhere. -/
theorem c7_bool_coercion_exact (v : String) :
    (v ∈ trueLits → setFieldValue Ty.bool v = .ok (.bool true)) ∧
    (v ∈ falseLits → setFieldValue Ty.bool v = .ok (.bool false)) ∧
    (v ∉ trueLits → v ∉ falseLits →
      setFieldValue Ty.bool v = .error (.parseBool v)) ∧
    convertToType Ty.bool v = setFieldValue Ty.bool v := by
  refine ⟨?_, ?_, ?_, ?_⟩
  · intro h
    show (match parseBool v with
          | some b => Except.ok (Val.bool b)
          | none => Except.error (CErr.parseBool v)) = _
    unfold parseBool
    rw [if_pos h]
  · intro h
    have hnt : v ∉ trueLits := by
      intro ht
      simp only [trueLits, List.mem_cons, List.not_mem_nil, or_false] at ht
      rcases ht with rfl | rfl | rfl | rfl | rfl | rfl <;> exact absurd h (by decide)
    show (match parseBool v with
          | some b => Except.ok (Val.bool b)
          | none => Except.error (CErr.parseBool v)) = _
    unfold parseBool
    rw [if_neg hnt, if_pos h]
  · intro h1 h2
    show (match parseBool v with
          | some b => Except.ok (Val.bool b)
          | none => Except.error (CErr.parseBool v)) = _
    unfold parseBool
    rw [if_neg h1, if_neg h2]
  · cases hb : parseBool v with
    | none =>
      show (match parseBool v with
            | some b => unmarshalInto Ty.bool (Jval.bool b)
            | none => Except.error (CErr.parseBool v))
          = (match parseBool v with
            | some b => Except.ok (Val.bool b)
            | none => Except.error (CErr.parseBool v))
      rw [hb]
    | some b =>
      show (match parseBool v with
            | some b => unmarshalInto Ty.bool (Jval.bool b)
            | none => Except.error (CErr.parseBool v))
          = (match parseBool v with
            | some b => Except.ok (Val.bool b)
            | none => Except.error (CErr.parseBool v))
      rw [hb]
      rfl

/-- C7 witness: `TRUE` and `f` are accepted with their values, `yes` is
rejected. -/
theorem c7_witness :
    setFieldValue Ty.bool "TRUE" = .ok (Val.bool true) ∧
    setFieldValue Ty.bool "f" = .ok (Val.bool false) ∧
    setFieldValue Ty.bool "yes" = .error (CErr.parseBool "yes") :=
  ⟨(c7_bool_coercion_exact "TRUE").1 (by decide),
   (c7_bool_coercion_exact "f").2.1 (by decide),
   (c7_bool_coercion_exact "yes").2.2.1 (by decide) (by decide)⟩

theorem decodeVal_int_num (w : IW) (i : Int) (lex : String)
    (hlo : -(2 ^ (iwBits w - 1) : Int) ≤ i) (hhi : i < (2 ^ (iwBits w - 1) : Int)) :
    decodeVal (.int w) (.num i true lex) = some (.intv w i) := by
  show (if (true = true) ∧ (-(2 ^ (iwBits w - 1) : Int) ≤ i
          ∧ i < (2 ^ (iwBits w - 1) : Int))
        then some (Val.intv w i) else none) = some (Val.intv w i)
  rw [if_pos ⟨rfl, hlo, hhi⟩]

/-- C8 counterexample: the Struct Binder's int8 coercion accepts `300`
(which overflows int8) and silently truncates it to `44` instead of
failing, and the Scalar Accessor's int8 coercion rejects the in-range
numeric `42` — refuting both the overflow-exactness and the claimed
agreement of the two coercions on the integer family. -/
theorem c8_counterexample :
    parseInt64 "300" = some 300 ∧
    setFieldValue (Ty.int IW.i8) "300" = .ok (Val.intv IW.i8 44) ∧
    parseInt64 "42" = some 42 ∧
    convertToType (Ty.int IW.i8) "42" = .error CErr.unmarshal :=
  ⟨rfl, rfl, rfl, rfl⟩

/-- C8 (amended): the Struct Binder parses signed integer destinations
with a base-10 signed 64-bit parse and unsigned destinations with an
unsigned 64-bit parse, failing exactly on syntax errors or 64-bit
overflow, and stores the result by two's-complement truncation to the
destination width without any width-overflow error; the Scalar Accessor
handles only the plain `int` kind (same parse, no truncation needed) and
fails on every other integer width regardless of the raw value. -/
theorem c8_int_coercion_behavior (w : IW) (u : UW) (v : String) :
    (∀ i, parseInt64 v = some i →
      setFieldValue (.int w) v = .ok (.intv w (truncI w i))) ∧
    (parseInt64 v = none → setFieldValue (.int w) v = .error (.parseInt v)) ∧
    (∀ n, parseUint64 v = some n →
      setFieldValue (.uint u) v = .ok (.uintv u (truncU u n))) ∧
    (parseUint64 v = none → setFieldValue (.uint u) v = .error (.parseUint v)) ∧
    (∀ i, parseInt64 v = some i →
      convertToType (.int .iDefault) v = .ok (.intv .iDefault i)) ∧
    (parseInt64 v = none →
      convertToType (.int .iDefault) v = .error (.parseInt v)) ∧
    (w ≠ .iDefault → convertToType (.int w) v = .error .unmarshal) ∧
    convertToType (.uint u) v = .error .unmarshal := by
  refine ⟨?_, ?_, ?_, ?_, ?_, ?_, ?_, rfl⟩
  · intro i h
    show (match parseInt64 v with
          | some i => Except.ok (Val.intv w (truncI w i))
          | none => Except.error (CErr.parseInt v)) = _
    rw [h]
  · intro h
    show (match parseInt64 v with
          | some i => Except.ok (Val.intv w (truncI w i))
          | none => Except.error (CErr.parseInt v)) = _
    rw [h]
  · intro n h
    show (match parseUint64 v with
          | some n => Except.ok (Val.uintv u (truncU u n))
          | none => Except.error (CErr.parseUint v)) = _
    rw [h]
  · intro h
    show (match parseUint64 v with
          | some n => Except.ok (Val.uintv u (truncU u n))
          | none => Except.error (CErr.parseUint v)) = _
    rw [h]
  · intro i h
    obtain ⟨hlo, hhi⟩ := parseInt64_range h
    show (match parseInt64 v with
          | some i => unmarshalInto (.int .iDefault) (.num i true (toString i))
          | none => Except.error (CErr.parseInt v)) = _
    rw [h]
    show unmarshalInto (.int .iDefault) (.num i true (toString i)) = _
    unfold unmarshalInto
    rw [decodeVal_int_num .iDefault i (toString i) hlo hhi]
  · intro h
    show (match parseInt64 v with
          | some i => unmarshalInto (.int .iDefault) (.num i true (toString i))
          | none => Except.error (CErr.parseInt v)) = _
    rw [h]
  · intro hw
    cases w with
    | iDefault => exact absurd rfl hw
    | i8 => rfl
    | i16 => rfl
    | i32 => rfl
    | i64 => rfl

/-- C8 witness: in-range and out-of-range inputs across both coercions. -/
theorem c8_witness :
    setFieldValue (Ty.int IW.i64) "-7" = .ok (Val.intv IW.i64 (-7)) ∧
    setFieldValue (Ty.int IW.iDefault) "abc" = .error (CErr.parseInt "abc") ∧
    setFieldValue (Ty.uint UW.u8) "260" = .ok (Val.uintv UW.u8 4) ∧
    setFieldValue (Ty.uint UW.u16) "-3" = .error (CErr.parseUint "-3") ∧
    convertToType (Ty.int IW.iDefault) "42" = .ok (Val.intv IW.iDefault 42) ∧
    convertToType (Ty.int IW.i32) "5" = .error CErr.unmarshal :=
  ⟨(c8_int_coercion_behavior IW.i64 UW.u8 "-7").1 (-7) rfl,
   (c8_int_coercion_behavior IW.iDefault UW.u8 "abc").2.1 rfl,
   (c8_int_coercion_behavior IW.i64 UW.u8 "260").2.2.1 260 rfl,
   (c8_int_coercion_behavior IW.i64 UW.u16 "-3").2.2.2.1 rfl,
   (c8_int_coercion_behavior IW.iDefault UW.u8 "42").2.2.2.2.1 42 rfl,
   (c8_int_coercion_behavior IW.i32 UW.u8 "5").2.2.2.2.2.2.1 (by decide)⟩

end KapetaRest
